import Mathlib

/- Verification of the BirchVfd serial VFD driver (src/main.rs).

   Shallow embedding conventions:
   * Rust `u8` values are modelled as `Nat` together with explicit wrap-around
     (`% 256`) in every arithmetic operation the source performs on `u8`
     (release-mode wrapping semantics).  The underflow hazard of the two `u8`
     subtractions in `get_text_fit` (which panics in a debug build and wraps in
     a release build) is treated explicitly by dedicated theorems.
   * A Rust `&str` / byte slice is a `List Nat` of byte values.
   * The serial port is modelled by a trace of events (`Ev`): `Ev.ctrl` records
     a command byte sequence sent with `write_all`, `Ev.data` records a text
     write, together with the logical cursor position and the number of bytes
     still pending at the moment the write is issued (values the source loop
     computes just before each write).  Transport writes always succeed in the
     model; the advisory flush after `clear` is a `Bool` parameter.
   * The `write_multi_line` loop is modelled with an explicit fuel argument;
     `none` means the loop has not finished within `fuel` iterations (the Rust
     loop can genuinely diverge, e.g. `width = 0` with wrap-around enabled), or
     that the `.expect` on its result in `write_text` panicked. -/

/-- Wrapping `u8` addition (`a + b` on `u8` in a release build). -/
def u8add (a b : Nat) : Nat := (a + b) % 256

/-- Wrapping `u8` subtraction (`a - b` on `u8` in a release build). -/
def u8sub (a b : Nat) : Nat := (a % 256 + 256 - b % 256) % 256

/-- Wrapping `u8` multiplication (`a * b` on `u8` in a release build). -/
def u8mul (a b : Nat) : Nat := (a * b) % 256

/-- The `TextFit` enum of the source.  Note that the source has no
`OneLineTruncated` variant: `NeedsWrap` doubles as the marker for the
truncating path of `write_multi_line`. -/
inductive TextFit
  | OneLine
  | NeedsWrap
  | NeedsWrapAround
  | TooLong
deriving DecidableEq

/-- The error values produced by the driver (the source uses `io::Error` with
a formatted message; we keep the data the message carries). -/
inductive VfdErr
  /-- Message "Text too long to fit on display. A maximum of {width*height} characters
  can be displayed, but {text.len()} were provided." -/
  | textTooLong (capacity provided : Nat)
  /-- Message "Text requires wrapping, use the write_text method instead." -/
  | needsWrapUseWriteText
  /-- Message "Not enough space to write text and wrap around is disabled." -/
  | noSpace
deriving DecidableEq

/-- One observable event on the serial port.  `data cx cy rem bytes` is a text
write: `bytes` were passed to the port while the logical cursor was at
`(cx, cy)` and `rem` bytes of the request were still pending; `ctrl` is a
command byte sequence. -/
inductive Ev
  | data (cx cy rem : Nat) (bytes : List Nat)
  | ctrl (bytes : List Nat)
deriving DecidableEq

/-- The `BirchVfd` struct (the port handle is replaced by the event traces the
operations return). -/
structure BirchVfd where
  width : Nat
  height : Nat
  cursor_x : Nat
  cursor_y : Nat
deriving DecidableEq

/-- Replacement-character bytes (U+FFFD encoded in UTF-8), pushed by
`String::from_utf8_lossy` for each maximal invalid subsequence. -/
def replacementBytes : List Nat := [0xEF, 0xBF, 0xBD]

/-- UTF-8 continuation byte test (`0x80..=0xBF`). -/
def isCont (b : Nat) : Bool := 0x80 ≤ b && b ≤ 0xBF

/-- Constraint on the second byte of a three-byte UTF-8 sequence headed by
`b1` (per the Rust core validator). -/
def valid3second (b1 b2 : Nat) : Bool :=
  (b1 == 0xE0 && 0xA0 ≤ b2 && b2 ≤ 0xBF) ||
  (0xE1 ≤ b1 && b1 ≤ 0xEC && isCont b2) ||
  (b1 == 0xED && 0x80 ≤ b2 && b2 ≤ 0x9F) ||
  (0xEE ≤ b1 && b1 ≤ 0xEF && isCont b2)

/-- Constraint on the second byte of a four-byte UTF-8 sequence headed by
`b1` (per the Rust core validator). -/
def valid4second (b1 b2 : Nat) : Bool :=
  (b1 == 0xF0 && 0x90 ≤ b2 && b2 ≤ 0xBF) ||
  (0xF1 ≤ b1 && b1 ≤ 0xF3 && isCont b2) ||
  (b1 == 0xF4 && 0x80 ≤ b2 && b2 ≤ 0x8F)

/-- Rust `String::from_utf8_lossy` at the byte level, fuel-indexed (each step
consumes at least one byte, so `fuel ≥ length` is always enough): valid UTF-8
runs are copied verbatim, each maximal invalid subsequence (including an
incomplete sequence at the end) becomes one U+FFFD (`replacementBytes`). -/
def utf8LossyF : Nat → List Nat → List Nat
  | 0, _ => []
  | _ + 1, [] => []
  | f + 1, b1 :: t1 =>
    if b1 ≤ 0x7F then b1 :: utf8LossyF f t1
    else if 0xC2 ≤ b1 && b1 ≤ 0xDF then
      match t1 with
      | [] => replacementBytes
      | b2 :: t2 =>
        if isCont b2 then b1 :: b2 :: utf8LossyF f t2
        else replacementBytes ++ utf8LossyF f (b2 :: t2)
    else if 0xE0 ≤ b1 && b1 ≤ 0xEF then
      match t1 with
      | [] => replacementBytes
      | b2 :: t2 =>
        if valid3second b1 b2 then
          match t2 with
          | [] => replacementBytes
          | b3 :: t3 =>
            if isCont b3 then b1 :: b2 :: b3 :: utf8LossyF f t3
            else replacementBytes ++ utf8LossyF f (b3 :: t3)
        else replacementBytes ++ utf8LossyF f (b2 :: t2)
    else if 0xF0 ≤ b1 && b1 ≤ 0xF4 then
      match t1 with
      | [] => replacementBytes
      | b2 :: t2 =>
        if valid4second b1 b2 then
          match t2 with
          | [] => replacementBytes
          | b3 :: t3 =>
            if isCont b3 then
              match t3 with
              | [] => replacementBytes
              | b4 :: t4 =>
                if isCont b4 then b1 :: b2 :: b3 :: b4 :: utf8LossyF f t4
                else replacementBytes ++ utf8LossyF f (b4 :: t4)
            else replacementBytes ++ utf8LossyF f (b3 :: t3)
        else replacementBytes ++ utf8LossyF f (b2 :: t2)
    else replacementBytes ++ utf8LossyF f t1

/-- Rust `String::from_utf8_lossy` at the byte level. -/
def utf8Lossy (l : List Nat) : List Nat := utf8LossyF l.length l

namespace BirchVfd

/-- State right after `BirchVfd::new`: the given geometry, cursor fields
initialized to `(1, 1)` (the source literally writes `cursor_x: 1,
cursor_y: 1`). -/
def new (width height : Nat) : BirchVfd :=
  { width := width, height := height, cursor_x := 1, cursor_y := 1 }

/-- Operation `get_cursor`: pure accessor. -/
def get_cursor (s : BirchVfd) : Nat × Nat := (s.cursor_x, s.cursor_y)

/-- Operation `clear`: sends the single clear byte `0x0C` and then flushes; a flush
failure (`flushOk = false`) only prints a warning.  The cursor fields are not
touched by the source. -/
def clear (s : BirchVfd) (flushOk : Bool) : Except VfdErr Unit × BirchVfd × List Ev :=
  (Except.ok (), s, [Ev.ctrl [0x0C]])

/-- The state update of `set_cursor`: each coordinate is clamped to the
corresponding bound before being stored. -/
def set_cursor_state (s : BirchVfd) (x y : Nat) : BirchVfd :=
  { s with
    cursor_x := if x > s.width then s.width else x
    cursor_y := if y > s.height then s.height else y }

/-- The wire bytes of `set_cursor`: `[CMD_US, b, x + 1, y + 1]` where `b` is
the byte of the character dollar (0x24) — built from the unclamped arguments
`x`, `y` (the source uses `x + 1`, `y + 1`, not the clamped fields). -/
def set_cursor_bytes (x y : Nat) : List Nat :=
  [0x1F, 0x24, u8add x 1, u8add y 1]

/-- Operation `set_cursor`: clamps the stored cursor, sends the four command bytes. -/
def set_cursor (s : BirchVfd) (x y : Nat) : BirchVfd × List Ev :=
  (set_cursor_state s x y, [Ev.ctrl (set_cursor_bytes x y)])

/-- Operation `get_text_fit`: classifies `text` against the display.  All arithmetic is
`u8` arithmetic of the source (`text.len() as u8`, `width - cursor_x`,
`height - (cursor_y + 1)`, `space + lines_left * width`). -/
def get_text_fit (s : BirchVfd) (text : List Nat)
    (can_wrap_around can_truncate : Bool) : TextFit :=
  let text_length := text.length % 256
  let space_left_on_line := u8sub s.width s.cursor_x
  let lines_left := u8sub s.height (u8add s.cursor_y 1)
  if text_length ≤ s.width then TextFit.OneLine
  else if lines_left = 0 ∨ u8add space_left_on_line (u8mul lines_left s.width) < text_length then
    if can_wrap_around then TextFit.NeedsWrapAround
    else if can_truncate then TextFit.NeedsWrap
    else TextFit.TooLong
  else TextFit.NeedsWrap

/-- Operation `write_multi_line`, with an explicit fuel bound on the number of loop
iterations (`none` = the loop did not finish within `fuel` steps).  Each
iteration takes `min (width - cursor_x) remaining.length` bytes, writes their
lossy re-decoding, and then either stops, truncates, fails, or moves the
cursor to `(0, cursor_y + 1)` and continues. -/
def write_multi_line :
    Nat → BirchVfd → List Nat → Bool → Bool →
      Option (Except VfdErr Unit × BirchVfd × List Ev)
  | 0, _, _, _, _ => none
  | fuel + 1, s, remaining, can_wrap_around, can_truncate =>
    if remaining = [] then some (Except.ok (), s, [])
    else
      let space_available := u8sub s.width s.cursor_x
      let bytes_to_take := min space_available remaining.length
      let ev := Ev.data s.cursor_x s.cursor_y remaining.length
        (utf8Lossy (remaining.take bytes_to_take))
      let remaining2 := remaining.drop bytes_to_take
      if remaining2 = [] then some (Except.ok (), s, [ev])
      else if u8add s.cursor_y 1 < s.height then
        match write_multi_line fuel (set_cursor_state s 0 (u8add s.cursor_y 1))
            remaining2 can_wrap_around can_truncate with
        | none => none
        | some (r, s3, tr) =>
          some (r, s3, ev :: Ev.ctrl (set_cursor_bytes 0 (u8add s.cursor_y 1)) :: tr)
      else if can_truncate then
        some (Except.ok (), set_cursor_state s s.width s.height,
          [ev, Ev.ctrl (set_cursor_bytes s.width s.height)])
      else if can_wrap_around then
        match write_multi_line fuel (set_cursor_state s 0 (u8add s.cursor_y 1))
            remaining2 can_wrap_around can_truncate with
        | none => none
        | some (r, s3, tr) =>
          some (r, s3, ev :: Ev.ctrl (set_cursor_bytes 0 (u8add s.cursor_y 1)) :: tr)
      else
        some (Except.error VfdErr.noSpace, set_cursor_state s s.width s.height,
          [ev, Ev.ctrl (set_cursor_bytes s.width s.height)])

/-- Operation `writeln`: classifies with both flags `false`; only a `OneLine` text is
written (verbatim), the other classifications produce errors and send
nothing. -/
def writeln (s : BirchVfd) (text : List Nat) :
    Except VfdErr Unit × BirchVfd × List Ev :=
  match get_text_fit s text false false with
  | TextFit.OneLine =>
    (Except.ok (), s, [Ev.data s.cursor_x s.cursor_y text.length text])
  | TextFit.NeedsWrap => (Except.error VfdErr.needsWrapUseWriteText, s, [])
  | TextFit.NeedsWrapAround => (Except.error VfdErr.needsWrapUseWriteText, s, [])
  | TextFit.TooLong =>
    (Except.error (VfdErr.textTooLong (s.width * s.height) text.length), s, [])

/-- Operation `write_text`: dispatches on `get_text_fit`.  A `OneLine` text is written
verbatim; the wrap classifications run `write_multi_line` (whose `Err` result
the source turns into a panic via `.expect`, hence `none`); `TooLong` fails
with the total-capacity error and sends nothing. -/
def write_text (fuel : Nat) (s : BirchVfd) (text : List Nat)
    (can_wrap_around can_truncate : Bool) :
    Option (Except VfdErr Unit × BirchVfd × List Ev) :=
  match get_text_fit s text can_wrap_around can_truncate with
  | TextFit.OneLine =>
    some (Except.ok (), s, [Ev.data s.cursor_x s.cursor_y text.length text])
  | TextFit.NeedsWrap =>
    match write_multi_line fuel s text can_wrap_around can_truncate with
    | some (Except.ok u, s3, tr) => some (Except.ok u, s3, tr)
    | some (Except.error _, _, _) => none
    | none => none
  | TextFit.NeedsWrapAround =>
    match write_multi_line fuel s text can_wrap_around can_truncate with
    | some (Except.ok u, s3, tr) => some (Except.ok u, s3, tr)
    | some (Except.error _, _, _) => none
    | none => none
  | TextFit.TooLong =>
    some (Except.error (VfdErr.textTooLong (s.width * s.height) text.length), s, [])

end BirchVfd

/-- The cursor invariant of the spec: `cursor_column ≤ width ∧ cursor_row ≤ height`. -/
abbrev cursorInv (s : BirchVfd) : Prop :=
  s.cursor_x ≤ s.width ∧ s.cursor_y ≤ s.height

/-- The cursor columns recorded in the data events of a trace, in order. -/
def dataCols : List Ev → List Nat
  | [] => []
  | Ev.data cx _ _ _ :: t => cx :: dataCols t
  | Ev.ctrl _ :: t => dataCols t

/-- A data event writes exactly `min (width - cx) rem` bytes, where `cx` is
the cursor column and `rem` the pending byte count at the time of the write
(control events are unconstrained). -/
def chunk_exact (w : Nat) : Ev → Bool
  | Ev.data cx _ rem bytes => bytes.length == min (w - cx) rem
  | Ev.ctrl _ => true

/-- States reachable from `s` through the public operations construction
(`refl` on a freshly built state), `clear`, `set_cursor`, `writeln` and
`write_text`. -/
inductive Reachable : BirchVfd → BirchVfd → Prop
  | refl (s : BirchVfd) : Reachable s s
  | clear_step (s s' : BirchVfd) (flushOk : Bool) :
      Reachable s s' → Reachable s (BirchVfd.clear s' flushOk).2.1
  | set_cursor_step (s s' : BirchVfd) (x y : Nat) :
      Reachable s s' → Reachable s (BirchVfd.set_cursor s' x y).1
  | writeln_step (s s' : BirchVfd) (text : List Nat) :
      Reachable s s' → Reachable s (BirchVfd.writeln s' text).2.1
  | write_text_step (s s' : BirchVfd) (fuel : Nat) (text : List Nat)
      (wa ct : Bool) (r : Except VfdErr Unit) (s2 : BirchVfd) (tr : List Ev) :
      Reachable s s' →
      BirchVfd.write_text fuel s' text wa ct = some (r, s2, tr) →
      Reachable s s2

theorem u8sub_exact (a b : Nat) (ha : a ≤ 255) (hb : b ≤ a) : u8sub a b = a - b := by
  unfold u8sub; omega

theorem u8add_exact (a b : Nat) (h : a + b ≤ 255) : u8add a b = a + b := by
  unfold u8add; omega

theorem utf8LossyF_ascii (f : Nat) :
    ∀ l : List Nat, (∀ b ∈ l, b ≤ 127) → l.length ≤ f → utf8LossyF f l = l := by
  induction f with
  | zero =>
    intro l hA hl
    cases l with
    | nil => rfl
    | cons b t => simp at hl
  | succ f ih =>
    intro l hA hl
    cases l with
    | nil => rfl
    | cons b t =>
      have hb : b ≤ 127 := hA b (List.mem_cons_self b t)
      have ht : ∀ x ∈ t, x ≤ 127 := fun x hx => hA x (List.mem_cons_of_mem b hx)
      have hlt : t.length ≤ f := by simp at hl; omega
      simp only [utf8LossyF, if_pos hb, ih t ht hlt]

theorem utf8Lossy_ascii (l : List Nat) (hA : ∀ b ∈ l, b ≤ 127) : utf8Lossy l = l :=
  utf8LossyF_ascii l.length l hA le_rfl

/-- Claim C1: whenever the byte length of the text is at most the display width,
`get_text_fit` classifies it `OneLine`, for every display state and both
flags (the `u8` cast `len as u8` cannot increase a value that is already
`≤ width ≤ 255`). -/
theorem one_line_whenever_len_le_width (s : BirchVfd) (text : List Nat)
    (wa ct : Bool) (hlen : text.length ≤ s.width) :
    BirchVfd.get_text_fit s text wa ct = TextFit.OneLine := by
  have h : text.length % 256 ≤ s.width := le_trans (Nat.mod_le _ _) hlen
  unfold BirchVfd.get_text_fit
  simp [h]

theorem one_line_whenever_len_le_width_witness :
    (List.replicate 20 97).length ≤ (⟨20, 2, 7, 1⟩ : BirchVfd).width ∧
    BirchVfd.get_text_fit ⟨20, 2, 7, 1⟩ (List.replicate 20 97) true true = TextFit.OneLine :=
  ⟨by decide, one_line_whenever_len_le_width ⟨20, 2, 7, 1⟩ (List.replicate 20 97) true true (by decide)⟩

/-- Claim C3 (amended): on a `TooLong` classification, `write_text` fails with
the error whose capacity figure is the TOTAL display capacity
`width * height` (not the remaining capacity) and whose provided figure is
the byte length of the text, sending nothing and leaving the state unchanged. -/
theorem too_long_error_fields (fuel : Nat) (s : BirchVfd) (text : List Nat)
    (wa ct : Bool) (hfit : BirchVfd.get_text_fit s text wa ct = TextFit.TooLong) :
    BirchVfd.write_text fuel s text wa ct
      = some (Except.error (VfdErr.textTooLong (s.width * s.height) text.length), s, []) := by
  unfold BirchVfd.write_text
  rw [hfit]

theorem too_long_error_fields_witness :
    BirchVfd.get_text_fit ⟨20, 2, 0, 1⟩ (List.replicate 25 97) false false = TextFit.TooLong ∧
    BirchVfd.write_text 5 ⟨20, 2, 0, 1⟩ (List.replicate 25 97) false false
      = some (Except.error (VfdErr.textTooLong 40 25), ⟨20, 2, 0, 1⟩, []) :=
  ⟨by decide, too_long_error_fields 5 ⟨20, 2, 0, 1⟩ (List.replicate 25 97) false false (by decide)⟩

/-- Claim C3, counterexample to the claimed capacity field: on the 20×2
display with cursor `(0, 1)` and a 25-byte text, the error carries
`capacity = 40` (the code value `width * height`), while the remaining capacity
`space_on_line + lines_left * width` the claim names — computed exactly as
the code computes it — is `20`. -/
theorem too_long_capacity_counterexample :
    BirchVfd.write_text 5 ⟨20, 2, 0, 1⟩ (List.replicate 25 97) false false
      = some (Except.error (VfdErr.textTooLong 40 25), ⟨20, 2, 0, 1⟩, []) ∧
    u8add (u8sub 20 0) (u8mul (u8sub 2 (u8add 1 1)) 20) = 20 ∧ (40 : Nat) ≠ 20 :=
  ⟨rfl, by decide, by decide⟩

/-- Claim C6 (code bug): `clear` sends the clear byte but never touches the
logical cursor fields, so `get_cursor` still reports the old position
afterwards — here `(3, 1)`, not `(0, 0)` — whether the flush succeeded or
failed. -/
theorem clear_leaves_cursor_unchanged :
    BirchVfd.get_cursor (BirchVfd.clear ⟨20, 2, 3, 1⟩ true).2.1 = (3, 1) ∧
    BirchVfd.get_cursor (BirchVfd.clear ⟨20, 2, 3, 1⟩ false).2.1 = (3, 1) ∧
    ((3, 1) : Nat × Nat) ≠ (0, 0) :=
  ⟨rfl, rfl, by decide⟩

/-- Claim C7 (amended): `set_cursor` stores the clamped coordinates
(`min x width`, `min y height`) but the four wire bytes encode the UNCLAMPED
arguments plus one, wrapping at 256: `0x1F 0x24 (x+1)%256 (y+1)%256`. -/
theorem set_cursor_clamps_store_raw_wire (s : BirchVfd) (x y : Nat) :
    BirchVfd.get_cursor (BirchVfd.set_cursor s x y).1 = (min x s.width, min y s.height) ∧
    (BirchVfd.set_cursor s x y).2 = [Ev.ctrl [0x1F, 0x24, (x + 1) % 256, (y + 1) % 256]] := by
  constructor
  · have h1 : (if x > s.width then s.width else x) = min x s.width := by
      split <;> omega
    have h2 : (if y > s.height then s.height else y) = min y s.height := by
      split <;> omega
    unfold BirchVfd.get_cursor BirchVfd.set_cursor BirchVfd.set_cursor_state
    rw [show ({ s with
        cursor_x := if x > s.width then s.width else x,
        cursor_y := if y > s.height then s.height else y } : BirchVfd).cursor_x
      = (if x > s.width then s.width else x) from rfl]
    rw [h1]
    rw [show ({ s with
        cursor_x := if x > s.width then s.width else x,
        cursor_y := if y > s.height then s.height else y } : BirchVfd).cursor_y
      = (if y > s.height then s.height else y) from rfl]
    rw [h2]
  · rfl

/-- Claim C7, counterexample: `set_cursor(25, 0)` on a 20×2 display stores the
clamped `(20, 0)` but sends wire column byte `26 = 25 + 1`, not the claimed
`21 = 20 + 1`. -/
theorem set_cursor_wire_counterexample :
    BirchVfd.set_cursor ⟨20, 2, 0, 0⟩ 25 0 = (⟨20, 2, 20, 0⟩, [Ev.ctrl [0x1F, 0x24, 26, 1]]) ∧
    (26 : Nat) ≠ 21 :=
  ⟨rfl, by decide⟩

/-- Claim C9 (amended): the two `u8` subtractions of `get_text_fit` are exact
(no underflow, no wrap) precisely under `cursor_x ≤ width` and
`cursor_y + 1 ≤ height`; the cursor invariant alone (`cursor_y ≤ height`)
does not guarantee this. -/
theorem fit_subtractions_exact (s : BirchVfd) (hw : s.width ≤ 255)
    (hh : s.height ≤ 255) (hcx : s.cursor_x ≤ s.width)
    (hcy : s.cursor_y + 1 ≤ s.height) :
    u8sub s.width s.cursor_x = s.width - s.cursor_x ∧
    u8sub s.height (u8add s.cursor_y 1) = s.height - (s.cursor_y + 1) := by
  unfold u8sub u8add
  omega

theorem fit_subtractions_exact_witness :
    (⟨20, 2, 5, 0⟩ : BirchVfd).cursor_y + 1 ≤ (⟨20, 2, 5, 0⟩ : BirchVfd).height ∧
    (u8sub 20 5 = 20 - 5 ∧ u8sub 2 (u8add 0 1) = 2 - (0 + 1)) :=
  ⟨by decide,
   fit_subtractions_exact ⟨20, 2, 5, 0⟩ (by decide) (by decide) (by decide) (by decide)⟩

/-- Claim C9, counterexample: the state `(cursor_x, cursor_y) = (0, 2)` on a
20×2 display satisfies the cursor invariant, is reachable via
`set_cursor(0, 2)`, and yet `height - (cursor_y + 1)` underflows there: the
wrapping model yields `u8sub 2 3 = 255` (a debug build panics instead). -/
theorem fit_underflow_counterexample :
    Reachable (BirchVfd.new 20 2) ⟨20, 2, 0, 2⟩ ∧
    cursorInv ⟨20, 2, 0, 2⟩ ∧
    (⟨20, 2, 0, 2⟩ : BirchVfd).height < (⟨20, 2, 0, 2⟩ : BirchVfd).cursor_y + 1 ∧
    u8sub 2 (u8add 2 1) = 255 :=
  ⟨Reachable.set_cursor_step _ _ 0 2 (Reachable.refl _), by decide, by decide, by decide⟩

/-- Claim C10: `get_text_fit` measures length as `text.len() as u8`, i.e.
modulo 256; any text whose length reduces to at most `width` modulo 256 is
classified `OneLine`, and `write_text` / `writeln` then transmit the whole
text in one raw write, regardless of the display capacity. -/
theorem length_mod_256_oneline (fuel : Nat) (s : BirchVfd) (text : List Nat)
    (wa ct : Bool) (hlen : text.length % 256 ≤ s.width) :
    BirchVfd.get_text_fit s text wa ct = TextFit.OneLine ∧
    BirchVfd.write_text fuel s text wa ct
      = some (Except.ok (), s, [Ev.data s.cursor_x s.cursor_y text.length text]) ∧
    BirchVfd.writeln s text
      = (Except.ok (), s, [Ev.data s.cursor_x s.cursor_y text.length text]) := by
  have hfit : ∀ wa2 ct2 : Bool, BirchVfd.get_text_fit s text wa2 ct2 = TextFit.OneLine := by
    intro wa2 ct2
    unfold BirchVfd.get_text_fit
    simp [hlen]
  refine ⟨hfit wa ct, ?_, ?_⟩
  · unfold BirchVfd.write_text
    rw [hfit]
  · unfold BirchVfd.writeln
    rw [hfit]

set_option maxRecDepth 8192 in
theorem length_mod_256_oneline_witness :
    (List.replicate 256 97).length % 256 ≤ (⟨20, 2, 0, 0⟩ : BirchVfd).width ∧
    (BirchVfd.get_text_fit ⟨20, 2, 0, 0⟩ (List.replicate 256 97) false false = TextFit.OneLine ∧
     BirchVfd.write_text 1 ⟨20, 2, 0, 0⟩ (List.replicate 256 97) false false
       = some (Except.ok (), ⟨20, 2, 0, 0⟩, [Ev.data 0 0 256 (List.replicate 256 97)]) ∧
     BirchVfd.writeln ⟨20, 2, 0, 0⟩ (List.replicate 256 97)
       = (Except.ok (), ⟨20, 2, 0, 0⟩, [Ev.data 0 0 256 (List.replicate 256 97)])) ∧
    20 * 2 < (List.replicate 256 97).length :=
  ⟨by decide,
   length_mod_256_oneline 1 ⟨20, 2, 0, 0⟩ (List.replicate 256 97) false false (by decide),
   by decide⟩

theorem set_cursor_state_inv (s : BirchVfd) (x y : Nat) :
    cursorInv (BirchVfd.set_cursor_state s x y) := by
  unfold BirchVfd.set_cursor_state
  refine ⟨?_, ?_⟩ <;> dsimp <;> split <;> omega

theorem wml_cursorInv (fuel : Nat) :
    ∀ (s : BirchVfd) (text : List Nat) (wa ct : Bool) (r : Except VfdErr Unit)
      (s2 : BirchVfd) (tr : List Ev),
      BirchVfd.write_multi_line fuel s text wa ct = some (r, s2, tr) →
      cursorInv s → cursorInv s2 := by
  induction fuel with
  | zero =>
    intro s text wa ct r s2 tr h hs
    simp [BirchVfd.write_multi_line] at h
  | succ n ih =>
    intro s text wa ct r s2 tr h hs
    simp only [BirchVfd.write_multi_line] at h
    split at h
    · simp only [Option.some.injEq, Prod.mk.injEq] at h
      obtain ⟨-, h2, -⟩ := h
      exact h2 ▸ hs
    · split at h
      · simp only [Option.some.injEq, Prod.mk.injEq] at h
        obtain ⟨-, h2, -⟩ := h
        exact h2 ▸ hs
      · split at h
        · split at h
          · exact absurd h (by simp)
          · rename_i heq
            simp only [Option.some.injEq, Prod.mk.injEq] at h
            obtain ⟨-, h2, -⟩ := h
            exact h2 ▸ ih _ _ _ _ _ _ _ heq (set_cursor_state_inv _ _ _)
        · split at h
          · simp only [Option.some.injEq, Prod.mk.injEq] at h
            obtain ⟨-, h2, -⟩ := h
            exact h2 ▸ set_cursor_state_inv _ _ _
          · split at h
            · split at h
              · exact absurd h (by simp)
              · rename_i heq
                simp only [Option.some.injEq, Prod.mk.injEq] at h
                obtain ⟨-, h2, -⟩ := h
                exact h2 ▸ ih _ _ _ _ _ _ _ heq (set_cursor_state_inv _ _ _)
            · simp only [Option.some.injEq, Prod.mk.injEq] at h
              obtain ⟨-, h2, -⟩ := h
              exact h2 ▸ set_cursor_state_inv _ _ _

theorem wml_chunk_sizes (fuel : Nat) :
    ∀ (s : BirchVfd) (text : List Nat) (wa ct : Bool) (r : Except VfdErr Unit)
      (s2 : BirchVfd) (tr : List Ev),
      s.width ≤ 255 → s.cursor_x ≤ s.width → (∀ b ∈ text, b ≤ 127) →
      BirchVfd.write_multi_line fuel s text wa ct = some (r, s2, tr) →
      ∀ ev ∈ tr, chunk_exact s.width ev = true := by
  induction fuel with
  | zero =>
    intro s text wa ct r s2 tr hw hcx hA h
    simp [BirchVfd.write_multi_line] at h
  | succ n ih =>
    intro s text wa ct r s2 tr hw hcx hA h
    have hchunk : chunk_exact s.width
        (Ev.data s.cursor_x s.cursor_y text.length
          (utf8Lossy (text.take (min (u8sub s.width s.cursor_x) text.length)))) = true := by
      have hsub : u8sub s.width s.cursor_x = s.width - s.cursor_x :=
        u8sub_exact _ _ hw hcx
      have hascii : ∀ b ∈ text.take (min (u8sub s.width s.cursor_x) text.length), b ≤ 127 :=
        fun b hb => hA b (List.take_subset _ _ hb)
      have hlossy := utf8Lossy_ascii _ hascii
      simp only [chunk_exact]
      rw [hlossy]
      simp only [List.length_take, beq_iff_eq]
      omega
    have hleft : s.width ≤ 255 →
        ∀ ev2 ∈ tr, chunk_exact s.width ev2 = true → True := fun _ _ _ _ => trivial
    clear hleft
    have hrecPre : ∀ y : Nat,
        (BirchVfd.set_cursor_state s 0 y).width = s.width ∧
        (BirchVfd.set_cursor_state s 0 y).cursor_x = 0 := by
      intro y
      constructor
      · rfl
      · simp [BirchVfd.set_cursor_state]
    have hAdrop : ∀ k : Nat, ∀ b ∈ text.drop k, b ≤ 127 :=
      fun k b hb => hA b (List.drop_subset _ _ hb)
    simp only [BirchVfd.write_multi_line] at h
    split at h
    · simp only [Option.some.injEq, Prod.mk.injEq] at h
      obtain ⟨-, -, htr⟩ := h
      subst htr
      intro ev hev
      simp at hev
    · split at h
      · simp only [Option.some.injEq, Prod.mk.injEq] at h
        obtain ⟨-, -, htr⟩ := h
        subst htr
        intro ev hev
        simp only [List.mem_singleton] at hev
        subst hev
        exact hchunk
      · split at h
        · split at h
          · exact absurd h (by simp)
          · rename_i heq
            simp only [Option.some.injEq, Prod.mk.injEq] at h
            obtain ⟨-, -, htr⟩ := h
            subst htr
            have hih := ih (BirchVfd.set_cursor_state s 0 (u8add s.cursor_y 1)) _ wa ct _ _ _
              ((hrecPre (u8add s.cursor_y 1)).1 ▸ hw)
              (by rw [(hrecPre (u8add s.cursor_y 1)).1, (hrecPre (u8add s.cursor_y 1)).2]
                  exact Nat.zero_le _)
              (hAdrop _) heq
            intro ev hev
            simp only [List.mem_cons] at hev
            rcases hev with hev | hev | hev
            · subst hev
              exact hchunk
            · subst hev
              rfl
            · have := hih ev hev
              rwa [(hrecPre (u8add s.cursor_y 1)).1] at this
        · split at h
          · simp only [Option.some.injEq, Prod.mk.injEq] at h
            obtain ⟨-, -, htr⟩ := h
            subst htr
            intro ev hev
            simp only [List.mem_cons, List.mem_singleton] at hev
            rcases hev with hev | hev | hev
            · subst hev
              exact hchunk
            · subst hev
              rfl
            · simp at hev
          · split at h
            · split at h
              · exact absurd h (by simp)
              · rename_i heq
                simp only [Option.some.injEq, Prod.mk.injEq] at h
                obtain ⟨-, -, htr⟩ := h
                subst htr
                have hih := ih (BirchVfd.set_cursor_state s 0 (u8add s.cursor_y 1)) _ wa ct _ _ _
                  ((hrecPre (u8add s.cursor_y 1)).1 ▸ hw)
                  (by rw [(hrecPre (u8add s.cursor_y 1)).1, (hrecPre (u8add s.cursor_y 1)).2]
                      exact Nat.zero_le _)
                  (hAdrop _) heq
                intro ev hev
                simp only [List.mem_cons] at hev
                rcases hev with hev | hev | hev
                · subst hev
                  exact hchunk
                · subst hev
                  rfl
                · have := hih ev hev
                  rwa [(hrecPre (u8add s.cursor_y 1)).1] at this
            · simp only [Option.some.injEq, Prod.mk.injEq] at h
              obtain ⟨-, -, htr⟩ := h
              subst htr
              intro ev hev
              simp only [List.mem_cons, List.mem_singleton] at hev
              rcases hev with hev | hev | hev
              · subst hev
                exact hchunk
              · subst hev
                rfl
              · simp at hev

theorem wml_dataCols_zero (fuel : Nat) :
    ∀ (s : BirchVfd) (text : List Nat) (wa ct : Bool) (r : Except VfdErr Unit)
      (s2 : BirchVfd) (tr : List Ev),
      s.cursor_x = 0 →
      BirchVfd.write_multi_line fuel s text wa ct = some (r, s2, tr) →
      ∀ c ∈ dataCols tr, c = 0 := by
  induction fuel with
  | zero =>
    intro s text wa ct r s2 tr hx h
    simp [BirchVfd.write_multi_line] at h
  | succ n ih =>
    intro s text wa ct r s2 tr hx h
    have hrec0 : ∀ y : Nat, (BirchVfd.set_cursor_state s 0 y).cursor_x = 0 := by
      intro y
      simp [BirchVfd.set_cursor_state]
    simp only [BirchVfd.write_multi_line] at h
    split at h
    · simp only [Option.some.injEq, Prod.mk.injEq] at h
      obtain ⟨-, -, htr⟩ := h
      subst htr
      intro c hc
      simp [dataCols] at hc
    · split at h
      · simp only [Option.some.injEq, Prod.mk.injEq] at h
        obtain ⟨-, -, htr⟩ := h
        subst htr
        intro c hc
        simp only [dataCols, List.mem_singleton] at hc
        omega
      · split at h
        · split at h
          · exact absurd h (by simp)
          · rename_i heq
            simp only [Option.some.injEq, Prod.mk.injEq] at h
            obtain ⟨-, -, htr⟩ := h
            subst htr
            intro c hc
            simp only [dataCols, List.mem_cons] at hc
            rcases hc with hc | hc
            · omega
            · exact ih _ _ wa ct _ _ _ (hrec0 _) heq c hc
        · split at h
          · simp only [Option.some.injEq, Prod.mk.injEq] at h
            obtain ⟨-, -, htr⟩ := h
            subst htr
            intro c hc
            simp only [dataCols, List.mem_singleton] at hc
            omega
          · split at h
            · split at h
              · exact absurd h (by simp)
              · rename_i heq
                simp only [Option.some.injEq, Prod.mk.injEq] at h
                obtain ⟨-, -, htr⟩ := h
                subst htr
                intro c hc
                simp only [dataCols, List.mem_cons] at hc
                rcases hc with hc | hc
                · omega
                · exact ih _ _ wa ct _ _ _ (hrec0 _) heq c hc
            · simp only [Option.some.injEq, Prod.mk.injEq] at h
              obtain ⟨-, -, htr⟩ := h
              subst htr
              intro c hc
              simp only [dataCols, List.mem_singleton] at hc
              omega

theorem wml_dataCols_tail (fuel : Nat) (s : BirchVfd) (text : List Nat)
    (wa ct : Bool) (r : Except VfdErr Unit) (s2 : BirchVfd) (tr : List Ev)
    (h : BirchVfd.write_multi_line fuel s text wa ct = some (r, s2, tr)) :
    ∀ c ∈ (dataCols tr).drop 1, c = 0 := by
  cases fuel with
  | zero => simp [BirchVfd.write_multi_line] at h
  | succ n =>
    simp only [BirchVfd.write_multi_line] at h
    have hrec0 : ∀ y : Nat, (BirchVfd.set_cursor_state s 0 y).cursor_x = 0 := by
      intro y
      simp [BirchVfd.set_cursor_state]
    split at h
    · simp only [Option.some.injEq, Prod.mk.injEq] at h
      obtain ⟨-, -, htr⟩ := h
      subst htr
      intro c hc
      simp [dataCols] at hc
    · split at h
      · simp only [Option.some.injEq, Prod.mk.injEq] at h
        obtain ⟨-, -, htr⟩ := h
        subst htr
        intro c hc
        simp [dataCols] at hc
      · split at h
        · split at h
          · exact absurd h (by simp)
          · rename_i heq
            simp only [Option.some.injEq, Prod.mk.injEq] at h
            obtain ⟨-, -, htr⟩ := h
            subst htr
            intro c hc
            simp only [dataCols, List.drop_succ_cons, List.drop_zero] at hc
            exact wml_dataCols_zero n _ _ wa ct _ _ _ (hrec0 _) heq c hc
        · split at h
          · simp only [Option.some.injEq, Prod.mk.injEq] at h
            obtain ⟨-, -, htr⟩ := h
            subst htr
            intro c hc
            simp [dataCols] at hc
          · split at h
            · split at h
              · exact absurd h (by simp)
              · rename_i heq
                simp only [Option.some.injEq, Prod.mk.injEq] at h
                obtain ⟨-, -, htr⟩ := h
                subst htr
                intro c hc
                simp only [dataCols, List.drop_succ_cons, List.drop_zero] at hc
                exact wml_dataCols_zero n _ _ wa ct _ _ _ (hrec0 _) heq c hc
            · simp only [Option.some.injEq, Prod.mk.injEq] at h
              obtain ⟨-, -, htr⟩ := h
              subst htr
              intro c hc
              simp [dataCols] at hc

/-- Claim C4 (amended): in every terminating `write_multi_line` run on text
whose chunk cuts do not split multi-byte characters (here: ASCII bytes),
every chunk written is exactly `min (width - cursor_column) (bytes left)` at
the time of the write of that line — never more — and every chunk after the first
is written from column 0, the cursor having been moved to the start of the
next row (row clamped to `height`) beforehand.  For general UTF-8 input the
lossy re-decoding can expand a split character to the 3-byte U+FFFD and
exceed that minimum (see the counterexample). -/
theorem wrap_chunks_min_ascii (fuel : Nat) (s : BirchVfd) (text : List Nat)
    (wa ct : Bool) (r : Except VfdErr Unit) (s2 : BirchVfd) (tr : List Ev)
    (hw : s.width ≤ 255) (hcx : s.cursor_x ≤ s.width) (hA : ∀ b ∈ text, b ≤ 127)
    (h : BirchVfd.write_multi_line fuel s text wa ct = some (r, s2, tr)) :
    (∀ ev ∈ tr, chunk_exact s.width ev = true) ∧
    ∀ c ∈ (dataCols tr).drop 1, c = 0 :=
  ⟨wml_chunk_sizes fuel s text wa ct r s2 tr hw hcx hA h,
   wml_dataCols_tail fuel s text wa ct r s2 tr h⟩

theorem wrap_chunks_min_ascii_witness :
    (∀ b ∈ List.replicate 8 97, b ≤ 127) ∧
    ((∀ ev ∈ [Ev.data 0 0 8 (List.replicate 4 97), Ev.ctrl [0x1F, 0x24, 1, 2],
        Ev.data 0 1 4 (List.replicate 4 97)], chunk_exact 4 ev = true) ∧
     ∀ c ∈ (dataCols [Ev.data 0 0 8 (List.replicate 4 97), Ev.ctrl [0x1F, 0x24, 1, 2],
        Ev.data 0 1 4 (List.replicate 4 97)]).drop 1, c = 0) :=
  ⟨by decide,
   wrap_chunks_min_ascii 9 ⟨4, 2, 0, 0⟩ (List.replicate 8 97) false false
     (Except.ok ()) ⟨4, 2, 0, 1⟩ _ (by decide) (by decide) (by decide) rfl⟩

/-- Claim C4, counterexample: on a 4-column display the first chunk of
`"aaa" ++ [0xC3, 0xA9] ++ "aaa"` is cut after 4 raw bytes, splitting the
two-byte character; the lossy re-decoding writes 6 bytes — more than the
4 columns remaining and more than `min (width - cursor_column) (bytes left)`. -/
theorem chunk_min_counterexample :
    BirchVfd.write_text 9 ⟨4, 2, 0, 0⟩ [0x61, 0x61, 0x61, 0xC3, 0xA9, 0x61, 0x61, 0x61]
        false false
      = some (Except.ok (), ⟨4, 2, 0, 1⟩,
          [Ev.data 0 0 8 [0x61, 0x61, 0x61, 0xEF, 0xBF, 0xBD], Ev.ctrl [0x1F, 0x24, 1, 2],
           Ev.data 0 1 4 [0xEF, 0xBF, 0xBD, 0x61, 0x61, 0x61]]) ∧
    chunk_exact 4 (Ev.data 0 0 8 [0x61, 0x61, 0x61, 0xEF, 0xBF, 0xBD]) = false ∧
    ([0x61, 0x61, 0x61, 0xEF, 0xBF, 0xBD] : List Nat).length = 6 ∧ min (4 - 0) 8 = 4 :=
  ⟨rfl, by decide, by decide, by decide⟩

theorem writeln_state (s : BirchVfd) (text : List Nat) :
    (BirchVfd.writeln s text).2.1 = s := by
  unfold BirchVfd.writeln
  split <;> rfl

/-- Claim C8 (amended): provided the display is constructed with `width ≥ 1`
and `height ≥ 1` (the constructor unconditionally stores cursor `(1, 1)`),
every state reachable through `clear`, `set_cursor`, `writeln` and
`write_text` satisfies `cursor_x ≤ width` and `cursor_y ≤ height`. -/
theorem reachable_cursor_invariant (w h : Nat) (hw : 1 ≤ w) (hh : 1 ≤ h)
    (s : BirchVfd) (hr : Reachable (BirchVfd.new w h) s) : cursorInv s := by
  induction hr with
  | refl => exact ⟨hw, hh⟩
  | clear_step s1 flushOk hr0 ih => exact ih
  | set_cursor_step s1 x y hr0 ih => exact set_cursor_state_inv s1 x y
  | writeln_step s1 text hr0 ih =>
    rw [writeln_state]
    exact ih
  | write_text_step s1 fuel text wa ct r s2 tr hr0 hwt ih =>
    unfold BirchVfd.write_text at hwt
    split at hwt
    · simp only [Option.some.injEq, Prod.mk.injEq] at hwt
      obtain ⟨-, h2, -⟩ := hwt
      exact h2 ▸ ih
    · split at hwt
      · rename_i heq
        simp only [Option.some.injEq, Prod.mk.injEq] at hwt
        obtain ⟨-, h2, -⟩ := hwt
        exact h2 ▸ wml_cursorInv fuel _ _ _ _ _ _ _ heq ih
      · exact absurd hwt (by simp)
      · exact absurd hwt (by simp)
    · split at hwt
      · rename_i heq
        simp only [Option.some.injEq, Prod.mk.injEq] at hwt
        obtain ⟨-, h2, -⟩ := hwt
        exact h2 ▸ wml_cursorInv fuel _ _ _ _ _ _ _ heq ih
      · exact absurd hwt (by simp)
      · exact absurd hwt (by simp)
    · simp only [Option.some.injEq, Prod.mk.injEq] at hwt
      obtain ⟨-, h2, -⟩ := hwt
      exact h2 ▸ ih

theorem reachable_cursor_invariant_witness :
    cursorInv (BirchVfd.set_cursor (BirchVfd.new 20 2) 255 0).1 ∧
    BirchVfd.get_cursor (BirchVfd.set_cursor (BirchVfd.new 20 2) 255 0).1 = (20, 0) :=
  ⟨reachable_cursor_invariant 20 2 (by decide) (by decide) _
     (Reachable.set_cursor_step _ _ 255 0 (Reachable.refl _)),
   by decide⟩

/-- Claim C8, counterexample to the unrestricted claim: a display constructed
with `width = 0` starts (per `BirchVfd::new`) with `cursor_x = 1 > 0 = width`,
so the invariant fails on a reachable state without the `width ≥ 1`
precondition. -/
theorem invariant_counterexample_zero_width :
    Reachable (BirchVfd.new 0 2) (BirchVfd.new 0 2) ∧ ¬ cursorInv (BirchVfd.new 0 2) :=
  ⟨Reachable.refl _, by decide⟩

/-- Claim C2 (amended): the code has no `OneLineTruncated` variant; truncation
is signalled by `NeedsWrap` out of the insufficient-capacity branch and only
takes effect on the last row.  With the cursor on the last row
(`cursor_y + 1 = height`), `cursor_x < width`, a text of byte length in
`(width, 255]`, wrap-around disabled and truncation allowed, classification
returns `NeedsWrap` and `write_text` cuts the leading `width - cursor_x`
bytes of the text, writes their lossy re-decoding on the current line —
equal to that leading slice exactly when the cut does not split a multi-byte
character (in particular for ASCII text), while a split character becomes
the 3-byte U+FFFD — discards the rest, and parks the cursor at
`(width, height)`. -/
theorem truncate_on_last_row (fuel : Nat) (s : BirchVfd) (text : List Nat)
    (hw : s.width ≤ 255) (hh : s.height ≤ 255)
    (hcx : s.cursor_x < s.width) (hlast : s.cursor_y + 1 = s.height)
    (hlen : s.width < text.length) (hlen255 : text.length ≤ 255) :
    BirchVfd.get_text_fit s text false true = TextFit.NeedsWrap ∧
    BirchVfd.write_text (fuel + 1) s text false true
      = some (Except.ok (), BirchVfd.set_cursor_state s s.width s.height,
          [Ev.data s.cursor_x s.cursor_y text.length
             (utf8Lossy (text.take (s.width - s.cursor_x))),
           Ev.ctrl (BirchVfd.set_cursor_bytes s.width s.height)]) ∧
    (text.take (s.width - s.cursor_x)).length = s.width - s.cursor_x ∧
    BirchVfd.get_cursor (BirchVfd.set_cursor_state s s.width s.height)
      = (s.width, s.height) ∧
    ((∀ b ∈ text, b ≤ 127) →
      utf8Lossy (text.take (s.width - s.cursor_x)) = text.take (s.width - s.cursor_x)) := by
  have e1 : text.length % 256 = text.length := Nat.mod_eq_of_lt (by omega)
  have e2 : u8add s.cursor_y 1 = s.height := by
    unfold u8add
    omega
  have e3 : u8sub s.height (u8add s.cursor_y 1) = 0 := by
    rw [e2]
    unfold u8sub
    omega
  have espace : u8sub s.width s.cursor_x = s.width - s.cursor_x :=
    u8sub_exact _ _ hw (le_of_lt hcx)
  have ebtt : min (u8sub s.width s.cursor_x) text.length = s.width - s.cursor_x := by
    rw [espace]
    omega
  have hfit : BirchVfd.get_text_fit s text false true = TextFit.NeedsWrap := by
    simp only [BirchVfd.get_text_fit]
    rw [e1, if_neg (by omega), if_pos (Or.inl e3)]
    simp
  have hne : text ≠ [] := by
    intro hcon
    rw [hcon] at hlen
    simp at hlen
  have hdropne : text.drop (min (u8sub s.width s.cursor_x) text.length) ≠ [] := by
    intro hcon
    have hlen0 := congrArg List.length hcon
    simp only [List.length_drop, List.length_nil] at hlen0
    omega
  have hnl : ¬ (u8add s.cursor_y 1 < s.height) := by
    rw [e2]
    exact lt_irrefl _
  refine ⟨hfit, ?_, ?_, ?_, ?_⟩
  · unfold BirchVfd.write_text
    rw [hfit]
    simp only [BirchVfd.write_multi_line]
    rw [if_neg hne, if_neg hdropne, if_neg hnl, ebtt]
    simp
  · simp only [List.length_take]
    omega
  · simp [BirchVfd.get_cursor, BirchVfd.set_cursor_state]
  · intro hA
    exact utf8Lossy_ascii _ (fun b hb => hA b (List.take_subset _ _ hb))

theorem truncate_on_last_row_witness :
    ((⟨20, 2, 0, 1⟩ : BirchVfd).cursor_x < (⟨20, 2, 0, 1⟩ : BirchVfd).width ∧
     (BirchVfd.get_text_fit ⟨20, 2, 0, 1⟩ (List.replicate 25 97) false true = TextFit.NeedsWrap ∧
      BirchVfd.write_text 5 ⟨20, 2, 0, 1⟩ (List.replicate 25 97) false true
        = some (Except.ok (), ⟨20, 2, 20, 2⟩,
            [Ev.data 0 1 25 (List.replicate 20 97), Ev.ctrl [0x1F, 0x24, 21, 3]]) ∧
      ((List.replicate 25 97).take 20).length = 20 ∧
      BirchVfd.get_cursor (⟨20, 2, 20, 2⟩ : BirchVfd) = (20, 2) ∧
      ((∀ b ∈ List.replicate 25 97, b ≤ 127) →
        utf8Lossy ((List.replicate 25 97).take 20) = (List.replicate 25 97).take 20))) ∧
    ((⟨4, 2, 0, 1⟩ : BirchVfd).width < ([0x61, 0x61, 0x61, 0xC3, 0xA9, 0x61] : List Nat).length ∧
     (BirchVfd.get_text_fit ⟨4, 2, 0, 1⟩ [0x61, 0x61, 0x61, 0xC3, 0xA9, 0x61] false true
        = TextFit.NeedsWrap ∧
      BirchVfd.write_text 5 ⟨4, 2, 0, 1⟩ [0x61, 0x61, 0x61, 0xC3, 0xA9, 0x61] false true
        = some (Except.ok (), ⟨4, 2, 4, 2⟩,
            [Ev.data 0 1 6 [0x61, 0x61, 0x61, 0xEF, 0xBF, 0xBD], Ev.ctrl [0x1F, 0x24, 5, 3]]) ∧
      (([0x61, 0x61, 0x61, 0xC3, 0xA9, 0x61] : List Nat).take 4).length = 4 ∧
      BirchVfd.get_cursor (⟨4, 2, 4, 2⟩ : BirchVfd) = (4, 2) ∧
      ((∀ b ∈ ([0x61, 0x61, 0x61, 0xC3, 0xA9, 0x61] : List Nat), b ≤ 127) →
        utf8Lossy (([0x61, 0x61, 0x61, 0xC3, 0xA9, 0x61] : List Nat).take 4)
          = ([0x61, 0x61, 0x61, 0xC3, 0xA9, 0x61] : List Nat).take 4))) :=
  ⟨⟨by decide,
    truncate_on_last_row 4 ⟨20, 2, 0, 1⟩ (List.replicate 25 97) (by decide) (by decide)
      (by decide) (by decide) (by decide) (by decide)⟩,
   ⟨by decide,
    truncate_on_last_row 4 ⟨4, 2, 0, 1⟩ [0x61, 0x61, 0x61, 0xC3, 0xA9, 0x61] (by decide)
      (by decide) (by decide) (by decide) (by decide) (by decide)⟩⟩

/-- Claim C2, counterexample to the claim as stated: with truncation allowed
but ample capacity below (20×2 display, cursor `(0, 0)`, 25-byte text), the
code does not truncate to `width - cursor_column = 20` bytes: it classifies
`NeedsWrap` and writes all 25 bytes across two lines. -/
theorem truncate_claim_counterexample :
    BirchVfd.write_text 9 ⟨20, 2, 0, 0⟩ (List.replicate 25 97) false true
      = some (Except.ok (), ⟨20, 2, 0, 1⟩,
          [Ev.data 0 0 25 (List.replicate 20 97), Ev.ctrl [0x1F, 0x24, 1, 2],
           Ev.data 0 1 5 (List.replicate 5 97)]) ∧
    (List.replicate 20 97).length + (List.replicate 5 97).length = 25 ∧
    (25 : Nat) ≠ 20 - 0 :=
  ⟨rfl, by decide, by decide⟩

/-- Claim C5 (amended): with wrap-around enabled, when the last row is
reached with bytes still remaining, the loop issues `set_cursor(0,
cursor_y + 1)` — whose stored row is clamped to `height`, the bottom edge,
not row 0 — and continues writing from column 0 of that pinned bottom row. -/
theorem wrap_around_pins_bottom_row (fuel : Nat) (s : BirchVfd) (text : List Nat)
    (r : Except VfdErr Unit) (s3 : BirchVfd) (tr : List Ev)
    (hh : 1 ≤ s.height)
    (hrem : u8sub s.width s.cursor_x < text.length)
    (hlast : ¬ (u8add s.cursor_y 1 < s.height))
    (hrec : BirchVfd.write_multi_line fuel
        (BirchVfd.set_cursor_state s 0 (u8add s.cursor_y 1))
        (text.drop (min (u8sub s.width s.cursor_x) text.length)) true false
        = some (r, s3, tr)) :
    BirchVfd.write_multi_line (fuel + 1) s text true false
      = some (r, s3,
          Ev.data s.cursor_x s.cursor_y text.length
              (utf8Lossy (text.take (min (u8sub s.width s.cursor_x) text.length)))
            :: Ev.ctrl (BirchVfd.set_cursor_bytes 0 (u8add s.cursor_y 1)) :: tr) ∧
    (BirchVfd.set_cursor_state s 0 (u8add s.cursor_y 1)).cursor_y = s.height ∧
    (BirchVfd.set_cursor_state s 0 (u8add s.cursor_y 1)).cursor_y ≠ 0 := by
  have hne : text ≠ [] := by
    intro hcon
    rw [hcon] at hrem
    simp at hrem
  have hdropne : text.drop (min (u8sub s.width s.cursor_x) text.length) ≠ [] := by
    intro hcon
    have hlen0 := congrArg List.length hcon
    simp only [List.length_drop, List.length_nil] at hlen0
    omega
  have hcy : (BirchVfd.set_cursor_state s 0 (u8add s.cursor_y 1)).cursor_y = s.height := by
    have hge : s.height ≤ u8add s.cursor_y 1 := le_of_not_lt hlast
    simp only [BirchVfd.set_cursor_state]
    split <;> omega
  refine ⟨?_, hcy, ?_⟩
  · simp only [BirchVfd.write_multi_line]
    rw [if_neg hne, if_neg hdropne, if_neg hlast, hrec]
    simp
  · rw [hcy]
    omega

theorem wrap_around_pins_bottom_row_witness :
    u8sub 4 0 < (List.replicate 8 97).length ∧
    (BirchVfd.write_multi_line 4 ⟨4, 2, 0, 1⟩ (List.replicate 8 97) true false
       = some (Except.ok (), ⟨4, 2, 0, 2⟩,
           [Ev.data 0 1 8 (List.replicate 4 97), Ev.ctrl [0x1F, 0x24, 1, 3],
            Ev.data 0 2 4 (List.replicate 4 97)]) ∧
     (BirchVfd.set_cursor_state ⟨4, 2, 0, 1⟩ 0 (u8add 1 1)).cursor_y = 2 ∧
     (BirchVfd.set_cursor_state ⟨4, 2, 0, 1⟩ 0 (u8add 1 1)).cursor_y ≠ 0) :=
  ⟨by decide,
   wrap_around_pins_bottom_row 3 ⟨4, 2, 0, 1⟩ (List.replicate 8 97) (Except.ok ())
     ⟨4, 2, 0, 2⟩ [Ev.data 0 2 4 (List.replicate 4 97)] (by decide) (by decide)
     (by decide) rfl⟩

/-- Claim C5, counterexample to "wraps back to row 0": a full wrap-around run
(4×2 display, 12 ASCII bytes) continues on logical row 2 — the clamped bottom
edge, wire row byte 3 — and never issues a move to row 0 (wire bytes
`[0x1F, 0x24, 1, 1]`). -/
theorem wrap_around_counterexample :
    BirchVfd.write_text 9 ⟨4, 2, 0, 0⟩ (List.replicate 12 97) true false
      = some (Except.ok (), ⟨4, 2, 0, 2⟩,
          [Ev.data 0 0 12 (List.replicate 4 97), Ev.ctrl [0x1F, 0x24, 1, 2],
           Ev.data 0 1 8 (List.replicate 4 97), Ev.ctrl [0x1F, 0x24, 1, 3],
           Ev.data 0 2 4 (List.replicate 4 97)]) ∧
    (⟨4, 2, 0, 2⟩ : BirchVfd).cursor_y = 2 ∧ (2 : Nat) ≠ 0 ∧
    Ev.ctrl [0x1F, 0x24, 1, 3] ≠ Ev.ctrl (BirchVfd.set_cursor_bytes 0 0) :=
  ⟨rfl, rfl, by decide, by decide⟩
